import Mathlib

/-!
Shallow embedding of the mcheck validator (Go) for checking its
specification.  The embedding covers:

* the `Version` type, `Version.Compare` and `parseVersion`, which appear
  textually identically in `validator.go` and `main.go`;
* the `Validator` interface family of `validator.go` (`BaseValidator`,
  `PrimitiveValidator`, `RangeValidator`, `ArrayValidator`,
  `StructValidator`, `UnionValidator`, `LiteralValidator`,
  `AttributedValidator`, `ConstrainedValidator`) and their `Validate` and
  `AppliesForVersion` methods;
* the `MCDocValidator` methods of `main.go`
  (`isFieldAvailableWithConstraints`, `validateField`, `validateStruct`).

Modelling conventions:

* Go strings are Lean `String`s; where character-level work is needed
  (`strings.Split`, `strconv.Atoi`) we work on `String.data`.
* Go `float64` values are carried as exact rationals `ℚ`.  Every numeric
  input appearing in a theorem below is exactly representable as a
  `float64`, and the `float64 → int64 → float64` round-trip test performed
  by the Go code coincides on those inputs with truncation toward zero on
  `ℚ`.
* Go `int`/`int64` (the program targets 64-bit platforms) are Lean `Int`;
  where the Go code can overflow (`Version.Compare` returns differences of
  components) the wrap-around is modelled explicitly by `i64wrap`, and
  where `strconv` enforces the 64-bit range (`Atoi`) the range check is
  modelled explicitly.
* `fmt` number rendering (`%g`, `%v`) is abstracted by `fmtG`; no theorem
  below depends on the decimal text Go would print for a number.
* `ValidationContext.Definitions` and `ReferenceValidator` (a name-indexed
  validator table) are omitted: no claim exercises them, and a reference
  cycle would make the corresponding Go recursion diverge.
-/

/-! ### Version (validator.go lines 10-56, identical in main.go lines 17-63) -/

structure Version where
  major : Int
  minor : Int
  patch : Int
deriving DecidableEq, Repr

/-- Wrap-around of 64-bit signed integer arithmetic.  Go's `int` is 64 bits
on the targeted platforms and subtraction wraps (two's complement). -/
def i64wrap (n : Int) : Int :=
  (n + 2 ^ 63) % 2 ^ 64 - 2 ^ 63

/-- Model of `Version.Compare`: returns the (wrapping) difference of the first
differing component. -/
def Version.compare (v other : Version) : Int :=
  if v.major ≠ other.major then i64wrap (v.major - other.major)
  else if v.minor ≠ other.minor then i64wrap (v.minor - other.minor)
  else i64wrap (v.patch - other.patch)

/-- The specification-side ordering on versions: lexicographic comparison
of the three components (spec §3.1).  Used to state claims about
`Version.compare`, which is the code-side comparator. -/
def Version.specLt (a b : Version) : Prop :=
  a.major < b.major ∨
    (a.major = b.major ∧ (a.minor < b.minor ∨ (a.minor = b.minor ∧ a.patch < b.patch)))

def Version.specLe (a b : Version) : Prop :=
  a.major < b.major ∨
    (a.major = b.major ∧ (a.minor < b.minor ∨ (a.minor = b.minor ∧ a.patch ≤ b.patch)))

instance (a b : Version) : Decidable (a.specLt b) := by
  unfold Version.specLt; infer_instance

instance (a b : Version) : Decidable (a.specLe b) := by
  unfold Version.specLe; infer_instance

/-- Versions whose components are non-negative (spec §3.1: a version is a
triple of non-negative integers) and within the 64-bit range.  All
versions produced by `parseVersion` from digit strings satisfy this. -/
def Version.wf (v : Version) : Prop :=
  0 ≤ v.major ∧ v.major < 2 ^ 63 ∧
  0 ≤ v.minor ∧ v.minor < 2 ^ 63 ∧
  0 ≤ v.patch ∧ v.patch < 2 ^ 63

instance (v : Version) : Decidable v.wf := by
  unfold Version.wf; infer_instance

/-! ### parseVersion (validator.go lines 31-56, identical in main.go lines 38-63) -/

/-- Model of `strings.Split(s, ".")` on the character list of `s`. -/
def splitDot : List Char → List (List Char)
  | [] => [[]]
  | c :: cs =>
    if c = '.' then [] :: splitDot cs
    else
      match splitDot cs with
      | [] => [[c]]
      | p :: ps => (c :: p) :: ps

/-- Numeric value of a decimal digit string (most significant first). -/
def decVal (cs : List Char) : Nat :=
  cs.foldl (fun n c => n * 10 + (c.toNat - 48)) 0

/-- Decimal digit-string parsing inside `strconv.ParseInt`: fails on an
empty string or any non-digit character. -/
def decDigitsVal (cs : List Char) : Option Nat :=
  if cs = [] then none
  else if cs.all Char.isDigit then some (decVal cs) else none

/-- Model of `strconv.Atoi(s)`, i.e. `strconv.ParseInt(s, 10, 0)` with a 64-bit
`int`: optional sign, non-empty run of decimal digits, and the value must
fit in `int64` (`ErrRange` otherwise, which `parseVersion` treats as a
failure). -/
def goAtoi (cs : List Char) : Option Int :=
  match cs with
  | [] => none
  | c :: rest =>
    if c = '+' then
      (decDigitsVal rest).bind fun n =>
        if n ≤ 2 ^ 63 - 1 then some (n : Int) else none
    else if c = '-' then
      (decDigitsVal rest).bind fun n =>
        if n ≤ 2 ^ 63 then some (-(n : Int)) else none
    else
      (decDigitsVal cs).bind fun n =>
        if n ≤ 2 ^ 63 - 1 then some (n : Int) else none

/-- Model of `parseVersion`: splits on `"."`, requires 2 or 3 components, parses
each with `Atoi`; a missing patch component defaults to `0`. -/
def parseVersion (s : String) : Except String Version :=
  match splitDot s.data with
  | [mj, mn] =>
    match goAtoi mj with
    | none => .error ("invalid major version: " ++ String.mk mj)
    | some major =>
      match goAtoi mn with
      | none => .error ("invalid minor version: " ++ String.mk mn)
      | some minor => .ok ⟨major, minor, 0⟩
  | [mj, mn, pt] =>
    match goAtoi mj with
    | none => .error ("invalid major version: " ++ String.mk mj)
    | some major =>
      match goAtoi mn with
      | none => .error ("invalid minor version: " ++ String.mk mn)
      | some minor =>
        match goAtoi pt with
        | none => .error ("invalid patch version: " ++ String.mk pt)
        | some patch => .ok ⟨major, minor, patch⟩
  | _ => .error ("invalid version format: " ++ s)

/-- The parse result with the error message forgotten. -/
def parseVersionOpt (s : String) : Option Version :=
  (parseVersion s).toOption

/-! ### JSON value model (spec §3.6, Go `interface{}` after `encoding/json`)

The dynamic values the Go validators switch on: `nil`, `bool`, `int`/`int64`
(collapsed into one constructor: the `int64` case of `PrimitiveValidator`
behaves identically and no claim distinguishes them), `float64` (exact
rational), `string`, `[]interface {}` and `map[string]interface {}`.
A JSON object is modelled as the list of its key/value pairs in one fixed
enumeration order; Go stores it in a map whose iteration order is
randomized, which matters for (and only for) claim C9. -/

inductive GoValue where
  | null
  | bool (b : Bool)
  | int (n : Int)
  | float (q : ℚ)
  | str (s : String)
  | arr (xs : List GoValue)
  | obj (fields : List (String × GoValue))

/-- Rendering of `fmt`'s `%T` for the dynamic value. -/
def goTypeName : GoValue → String
  | .null => "<nil>"
  | .bool _ => "bool"
  | .int _ => "int"
  | .float _ => "float64"
  | .str _ => "string"
  | .arr _ => "[]interface \x7b\x7d"
  | .obj _ => "map[string]interface \x7b\x7d"

/-- Stand-in for `fmt`'s `%g`/`%v` rendering of a number.  The Go decimal
text is abstracted; no theorem below depends on this string. -/
def fmtG (q : ℚ) : String :=
  if q.den = 1 then toString q.num
  else toString q.num ++ "/" ++ toString q.den

mutual
/-- Model of `reflect.DeepEqual` on dynamic JSON values (used by `LiteralValidator`). -/
def goDeepEqual : GoValue → GoValue → Bool
  | .null, .null => true
  | .bool a, .bool b => a = b
  | .int a, .int b => a = b
  | .float a, .float b => a = b
  | .str a, .str b => a = b
  | .arr xs, .arr ys => goDeepEqualList xs ys
  | .obj fs, .obj gs => goDeepEqualPairs fs gs
  | _, _ => false

def goDeepEqualList : List GoValue → List GoValue → Bool
  | [], [] => true
  | x :: xs, y :: ys => goDeepEqual x y && goDeepEqualList xs ys
  | _, _ => false

def goDeepEqualPairs : List (String × GoValue) → List (String × GoValue) → Bool
  | [], [] => true
  | (k, x) :: xs, (l, y) :: ys => k = l && goDeepEqual x y && goDeepEqualPairs xs ys
  | _, _ => false
end

/-- Shallow `%v` rendering of a literal value for error messages (nested
containers abbreviated; no theorem depends on this string). -/
def goShowValue : GoValue → String
  | .null => "<nil>"
  | .bool b => if b then "true" else "false"
  | .int n => toString n
  | .float q => fmtG q
  | .str s => s
  | .arr _ => "[...]"
  | .obj _ => "map[...]"

/-- Model of `float64(int64(v))` seen on exact rationals: conversion to `int64`
truncates toward zero.  Exact for the magnitudes any claim exercises
(within `2^53`, where `float64` arithmetic is exact). -/
def goI64trunc (q : ℚ) : Int :=
  q.num.tdiv q.den

/-! ### ValidationContext / ValidationError (validator.go lines 58-76) -/

structure Ctx where
  version : Version
  path : List String

structure VErr where
  path : List String
  message : String
deriving DecidableEq, Repr

/-- Model of `ValidationError.Error()`. -/
def VErr.goString (e : VErr) : String :=
  if e.path = [] then e.message
  else "at " ++ String.intercalate "." e.path ++ ": " ++ e.message

/-! ### BaseValidator (validator.go lines 84-104) -/

structure BaseValidator where
  since : String
  untilV : String
deriving DecidableEq, Repr

/-- One Go gate block of `AppliesForVersion`: the `since` bound blocks the
target version iff the gate string is non-empty, parses, and the target
compares below it. -/
def gateBlocksLow (gate : String) (v : Version) : Bool :=
  gate ≠ "" &&
    match parseVersion gate with
    | .ok sinceVersion => decide (v.compare sinceVersion < 0)
    | .error _ => false

/-- The `until` bound blocks iff the gate parses and the target compares
above it. -/
def gateBlocksHigh (gate : String) (v : Version) : Bool :=
  gate ≠ "" &&
    match parseVersion gate with
    | .ok untilVersion => decide (0 < v.compare untilVersion)
    | .error _ => false

/-- Model of `BaseValidator.AppliesForVersion`. -/
def BaseValidator.appliesForVersion (bv : BaseValidator) (ctx : Ctx) : Bool :=
  if gateBlocksLow bv.since ctx.version then false
  else if gateBlocksHigh bv.untilV ctx.version then false
  else true

/-! ### RangeValidator (validator.go lines 149-200) -/

structure RangeValidator where
  base : BaseValidator
  min : Option ℚ
  max : Option ℚ
  minExclusive : Bool
  maxExclusive : Bool

/-- The `numValue` extraction switch at the top of `RangeValidator.Validate`
(`float64`, `int`, `int64` accepted). -/
def numValueOf : GoValue → Option ℚ
  | .float v => some v
  | .int v => some (v : ℚ)
  | _ => none

/-- Model of `RangeValidator.Validate`. -/
def RangeValidator.goValidate (rv : RangeValidator) (value : GoValue) (ctx : Ctx) : Option VErr :=
  if !(rv.base.appliesForVersion ctx) then none
  else
    match numValueOf value with
    | none =>
      some ⟨ctx.path, "expected number for range validation, got " ++ goTypeName value⟩
    | some numValue =>
      if (match rv.min with
          | some m => if rv.minExclusive then decide (numValue ≤ m) else decide (numValue < m)
          | none => false) then
        match rv.min with
        | some m =>
          if rv.minExclusive then
            some ⟨ctx.path, "value " ++ fmtG numValue ++ " must be greater than " ++ fmtG m⟩
          else
            some ⟨ctx.path,
              "value " ++ fmtG numValue ++ " must be greater than or equal to " ++ fmtG m⟩
        | none => none
      else if (match rv.max with
          | some m => if rv.maxExclusive then decide (m ≤ numValue) else decide (m < numValue)
          | none => false) then
        match rv.max with
        | some m =>
          if rv.maxExclusive then
            some ⟨ctx.path, "value " ++ fmtG numValue ++ " must be less than " ++ fmtG m⟩
          else
            some ⟨ctx.path,
              "value " ++ fmtG numValue ++ " must be less than or equal to " ++ fmtG m⟩
        | none => none
      else none

/-! ### The Validator family (validator.go lines 78-413)

Go's `Validator` is an interface; the concrete implementations become the
constructors of one inductive type.  `StructValidator.Fields` and the
validator lists are given their own list types inside the mutual block so
that `Validate` below is structurally recursive (and hence reduces in the
kernel).  `ReferenceValidator` is omitted (see the header comment). -/

mutual
inductive Validator where
  | primitive (base : BaseValidator) (ty : String)
  | range (rv : RangeValidator)
  | array (base : BaseValidator) (elementValidator : Validator)
      (lengthConstraint : Option RangeValidator)
  | structV (base : BaseValidator) (fields : FieldList) (spreadFields : VList)
  | union (base : BaseValidator) (alternatives : VList)
  | literal (base : BaseValidator) (value : GoValue)
  | attributed (base : BaseValidator) (innerValidator : Validator)
      (attributes : List (String × String))
  | constrained (base : BaseValidator) (innerValidator : Validator) (constraint : Validator)

inductive StructField where
  | mk (name : String) (validator : Validator) (optional : Bool) (base : BaseValidator)

inductive FieldList where
  | nil
  | cons (head : StructField) (tail : FieldList)

inductive VList where
  | nil
  | cons (head : Validator) (tail : VList)
end

/-- The per-element loop of `ArrayValidator.Validate`: pushes `[i]` on the
path, validates, and returns the first element error. -/
def elemsLoop (f : GoValue → Ctx → Option VErr) : List GoValue → Nat → Ctx → Option VErr
  | [], _, _ => none
  | x :: rest, i, ctx =>
    match f x { ctx with path := ctx.path ++ ["[" ++ toString i ++ "]"] } with
    | some e => some e
    | none => elemsLoop f rest (i + 1) ctx

/-- The second loop of `StructValidator.Validate` (lines 290-310): for each
object entry not seen by a declared field, try the spread validators; a
still-unvalidated key is an error only when the struct has NO spread
validators at all (`len(sv.SpreadFields) == 0`). -/
def remainingLoop (tryOne : String → GoValue → Bool) (noSpreads : Bool) (seen : List String) :
    List (String × GoValue) → Ctx → Option VErr
  | [], _ => none
  | (fieldName, fieldValue) :: rest, ctx =>
    if seen.contains fieldName then remainingLoop tryOne noSpreads seen rest ctx
    else if !tryOne fieldName fieldValue && noSpreads then
      some ⟨ctx.path, "unexpected field '" ++ fieldName ++ "'"⟩
    else remainingLoop tryOne noSpreads seen rest ctx

mutual
/-- Model of `Validate` for each concrete Go validator.  The in-place `ctx.Path`
mutation of the Go code is threaded functionally: the path is extended for
a sub-validation and the original context is used afterwards.  (Go does
not pop the path when a sub-validation fails, which only affects message
text of later union alternatives; no claim observes those messages.) -/
def Validator.validate : Validator → GoValue → Ctx → Option VErr
  | .primitive bv ty, value, ctx =>
    -- PrimitiveValidator.Validate, lines 112-147
    if !(bv.appliesForVersion ctx) then none
    else if ty = "string" then
      match value with
      | .str _ => none
      | _ => some ⟨ctx.path, "expected string, got " ++ goTypeName value⟩
    else if ty = "int" then
      match value with
      | .float v =>
        if v ≠ ((goI64trunc v : Int) : ℚ) then
          some ⟨ctx.path, "expected integer, got float"⟩
        else none
      | .int _ => none
      | _ => some ⟨ctx.path, "expected int, got " ++ goTypeName value⟩
    else if ty = "float" || ty = "double" then
      match value with
      | .float _ => none
      | _ => some ⟨ctx.path, "expected float, got " ++ goTypeName value⟩
    else if ty = "boolean" then
      match value with
      | .bool _ => none
      | _ => some ⟨ctx.path, "expected boolean, got " ++ goTypeName value⟩
    else if ty = "any" then none
    else some ⟨ctx.path, "unknown primitive type: " ++ ty⟩
  | .range rv, value, ctx => rv.goValidate value ctx
  | .array bv elementValidator lengthConstraint, value, ctx =>
    -- ArrayValidator.Validate, lines 209-237
    if !(bv.appliesForVersion ctx) then none
    else
      match value with
      | .arr xs =>
        match
          (match lengthConstraint with
           | some lc =>
             match lc.goValidate (.float (xs.length : ℚ)) ctx with
             | some e =>
               some ⟨ctx.path, "array length validation failed: " ++ e.goString⟩
             | none => none
           | none => none) with
        | some e => some e
        | none => elemsLoop (fun v c => Validator.validate elementValidator v c) xs 0 ctx
      | _ => some ⟨ctx.path, "expected array, got " ++ goTypeName value⟩
  | .structV bv fields spreadFields, value, ctx =>
    -- StructValidator.Validate, lines 254-313
    if !(bv.appliesForVersion ctx) then none
    else
      match value with
      | .obj obj =>
        match validateFields fields obj ctx with
        | .error e => some e
        | .ok seenFields =>
          remainingLoop (fun k v => trySpreads spreadFields k v ctx)
            (match spreadFields with | .nil => true | .cons _ _ => false)
            seenFields obj ctx
      | _ => some ⟨ctx.path, "expected object, got " ++ goTypeName value⟩
  | .union bv alternatives, value, ctx =>
    -- UnionValidator.Validate, lines 321-339
    if !(bv.appliesForVersion ctx) then none
    else
      match tryAlts alternatives value ctx with
      | none => none
      | some errors =>
        some ⟨ctx.path,
          "value does not match any union alternative: " ++ String.intercalate "; " errors⟩
  | .literal bv lit, value, ctx =>
    -- LiteralValidator.Validate, lines 347-356
    if !(bv.appliesForVersion ctx) then none
    else if goDeepEqual value lit then none
    else
      some ⟨ctx.path,
        "expected literal value " ++ goShowValue lit ++ ", got " ++ goShowValue value⟩
  | .attributed bv innerValidator _, value, ctx =>
    -- AttributedValidator.Validate, lines 384-392
    if !(bv.appliesForVersion ctx) then none
    else Validator.validate innerValidator value ctx
  | .constrained bv innerValidator constraint, value, ctx =>
    -- ConstrainedValidator.Validate, lines 401-413
    if !(bv.appliesForVersion ctx) then none
    else
      match Validator.validate innerValidator value ctx with
      | some e => some e
      | none => Validator.validate constraint value ctx

/-- The first loop of `StructValidator.Validate` (lines 268-287): declared
fields in order; skip those whose gate does not apply; a missing
non-optional field or a failing field value ends validation with that
error; otherwise the names of the present (seen) fields are collected. -/
def validateFields : FieldList → List (String × GoValue) → Ctx → Except VErr (List String)
  | .nil, _, _ => .ok []
  | .cons (.mk name validator opt fieldBase) rest, obj, ctx =>
    if !(fieldBase.appliesForVersion ctx) then validateFields rest obj ctx
    else
      match obj.lookup name with
      | none =>
        if !opt then .error ⟨ctx.path, "required field '" ++ name ++ "' is missing"⟩
        else validateFields rest obj ctx
      | some fieldValue =>
        match Validator.validate validator fieldValue
            { ctx with path := ctx.path ++ [name] } with
        | some e => .error e
        | none => (validateFields rest obj ctx).map fun seen => name :: seen

/-- The inner spread loop (lines 297-305): the key's value is tried, with
the key pushed on the path, against each spread validator until one
accepts it. -/
def trySpreads : VList → String → GoValue → Ctx → Bool
  | .nil, _, _, _ => false
  | .cons s rest, fieldName, fieldValue, ctx =>
    match Validator.validate s fieldValue { ctx with path := ctx.path ++ [fieldName] } with
    | none => true
    | some _ => trySpreads rest fieldName fieldValue ctx

/-- The alternatives loop of `UnionValidator.Validate`: `none` when some
alternative accepts the value (first success, remaining alternatives
untried), otherwise the collected error texts of all alternatives. -/
def tryAlts : VList → GoValue → Ctx → Option (List String)
  | .nil, _, _ => some []
  | .cons alt rest, value, ctx =>
    match Validator.validate alt value ctx with
    | none => none
    | some e => (tryAlts rest value ctx).map fun errors => e.goString :: errors
end

/-! ### main.go: MCDocValidator (lines 65-897)

`isFieldAvailableWithConstraints` receives already-parsed optional bounds
and the target version.  `validateField`/`validateStruct` walk a JSON
value against an `MCDocField` tree.  `MCDocStruct.Fields` is a Go map
`map[string]*MCDocField`; it is modelled as a key/field list in one fixed
enumeration order (the Go iteration order is randomized — claim C9).
Fields of `MCDocField` not read by any modelled code path (`TypeName`,
`VersionSince`/`VersionUntil`, `EnumValues`, `Constraints`) are omitted,
and the named-struct branch of the `MCDocTypeStruct` case (resolution of
`field.TypeName` through the schema's struct table, lines 857-889) is not
modelled: it is exercised by no claim, and on a cyclic schema the Go
recursion would not terminate.  A field without embedded struct fields
therefore contributes no issues, exactly as the code's lookup-failure
branch ("Unknown struct type, skip validation"). -/

/-- Model of `MCDocValidator.isFieldAvailableWithConstraints` (main.go lines
675-689). -/
def isFieldAvailableWithConstraints (sinceVersion untilVersion : Option Version)
    (targetVersion : Version) : Bool :=
  if (match sinceVersion with
      | some s => decide (targetVersion.compare s < 0)
      | none => false) then false
  else if (match untilVersion with
      | some u => decide (0 < targetVersion.compare u)
      | none => false) then false
  else true

inductive MCDocType where
  | unknown
  | string
  | int
  | float
  | double
  | boolean
  | array
  | struct
  | enum
  | optional
deriving DecidableEq, Repr

mutual
inductive MCDocField where
  | mk (name : String) (ty : MCDocType) (optional : Bool) (isAvailable : Bool)
      (arrayType : OptMCDocField) (structFields : OptMCDocFields)

inductive OptMCDocField where
  | none
  | some (f : MCDocField)

inductive OptMCDocFields where
  | none
  | some (fields : MCDocFieldList)

/-- Model of `map[string]*MCDocField` in one fixed enumeration order. -/
inductive MCDocFieldList where
  | nil
  | cons (name : String) (field : MCDocField) (tail : MCDocFieldList)
end

def MCDocField.optionalF : MCDocField → Bool
  | .mk _ _ opt _ _ _ => opt

def MCDocField.available : MCDocField → Bool
  | .mk _ _ _ avail _ _ => avail

/-- Map membership test `_, exists := structDef.Fields[fieldName]`. -/
def mcFieldsHasKey : MCDocFieldList → String → Bool
  | .nil, _ => false
  | .cons name _ tail, k => name = k || mcFieldsHasKey tail k

/-- Path extension of `validateStruct`/`validateField`:
`fieldPath := path; if fieldPath != "" { fieldPath += "." }; fieldPath += fieldName`. -/
def joinPath (path fieldName : String) : String :=
  if path = "" then fieldName else path ++ "." ++ fieldName

/-- The unknown-field loop of `validateStruct` (main.go lines 788-798):
every JSON key with no entry in the struct's field table is an issue. -/
def unknownFieldIssues (jsonData : List (String × GoValue)) (fields : MCDocFieldList)
    (path : String) : List String :=
  jsonData.filterMap fun kv =>
    if mcFieldsHasKey fields kv.1 then Option.none
    else Option.some ("Unknown field '" ++ joinPath path kv.1 ++ "'")

/-- The per-element loop of `validateField`'s array case: issues of all
elements are collected (with `path[i]` positions). -/
def issuesLoop (f : GoValue → String → List String) : List GoValue → Nat → String → List String
  | [], _, _ => []
  | x :: rest, i, path =>
    f x (path ++ "[" ++ toString i ++ "]") ++ issuesLoop f rest (i + 1) path

mutual
/-- Model of `MCDocValidator.validateField` (main.go lines 803-897). -/
def validateField (jsonValue : GoValue) (field : MCDocField) (path : String) : List String :=
  match field with
  | .mk _ ty _ _ arrayType structFields =>
    match ty with
    | .unknown => []
    | .string =>
      match jsonValue with
      | .str _ => []
      | _ => ["Field '" ++ path ++ "' should be a string, got " ++ goTypeName jsonValue]
    | .int =>
      match jsonValue with
      | .float v =>
        if v ≠ ((goI64trunc v : Int) : ℚ) then
          ["Field '" ++ path ++ "' should be an integer, got float " ++ fmtG v]
        else []
      | .int _ => []
      | _ => ["Field '" ++ path ++ "' should be an integer, got " ++ goTypeName jsonValue]
    | .float =>
      match jsonValue with
      | .float _ => []
      | .int _ => []
      | _ => ["Field '" ++ path ++ "' should be a number, got " ++ goTypeName jsonValue]
    | .double =>
      match jsonValue with
      | .float _ => []
      | .int _ => []
      | _ => ["Field '" ++ path ++ "' should be a number, got " ++ goTypeName jsonValue]
    | .boolean =>
      match jsonValue with
      | .bool _ => []
      | _ => ["Field '" ++ path ++ "' should be a boolean, got " ++ goTypeName jsonValue]
    | .array =>
      match jsonValue with
      | .arr xs =>
        (match arrayType with
         | .some elemField => issuesLoop (fun v p => validateField v elemField p) xs 0 path
         | .none => [])
      | _ => ["Field '" ++ path ++ "' should be an array, got " ++ goTypeName jsonValue]
    | .struct =>
      match jsonValue with
      | .obj structData =>
        (match structFields with
         | .some fl =>
           -- validateStruct on the embedded fields (inlined so the
           -- recursion stays structural; `validateStruct` below packages
           -- the same two loops)
           fieldLoop fl structData path ++ unknownFieldIssues structData fl path
         | .none => [])
      | _ => ["Field '" ++ path ++ "' should be an object, got " ++ goTypeName jsonValue]
    | .enum => []      -- no case in the Go switch: no issues
    | .optional => []  -- no case in the Go switch: no issues

/-- The required/typed-field loop of `validateStruct` (main.go lines
763-786), in the list's enumeration order. -/
def fieldLoop : MCDocFieldList → List (String × GoValue) → String → List String
  | .nil, _, _ => []
  | .cons fieldName field rest, jsonData, path =>
    (if field.available then
      match jsonData.lookup fieldName with
      | Option.none =>
        if !field.optionalF then
          ["Required field '" ++ joinPath path fieldName ++ "' is missing"]
        else []
      | Option.some jsonValue => validateField jsonValue field (joinPath path fieldName)
     else []) ++ fieldLoop rest jsonData path
end

/-- Model of `MCDocValidator.validateStruct` (main.go lines 759-801): the declared
field loop followed by the unknown-field loop. -/
def validateStruct (jsonData : List (String × GoValue)) (fields : MCDocFieldList)
    (path : String) : List String :=
  fieldLoop fields jsonData path ++ unknownFieldIssues jsonData fields path

deriving instance DecidableEq for Except

/-! ### Concrete inputs used by the claim theorems -/

/-- A validator gate with neither `since` nor `until` set. -/
def bv0 : BaseValidator := ⟨"", ""⟩

/-- A concrete validation context (target version 1.20.1, empty path). -/
def ctx0 : Ctx := ⟨⟨1, 20, 1⟩, []⟩

/-- The `float64` value 42.5 (exactly representable). -/
def q42half : ℚ := Rat.mk' 85 2 (by norm_num) (by norm_num)

/-- main.go model of a required field `x: int`, available for the target
version. -/
def intFieldEx : MCDocField := .mk "x" .int false true .none .none

/-- main.go model of an optional field `x?: int`. -/
def optIntFieldEx : MCDocField := .mk "x" .int true true .none .none

/-- main.go model of a `float` field. -/
def floatFieldEx : MCDocField := .mk "f" .float false true .none .none

/-- main.go model of a `double` field. -/
def doubleFieldEx : MCDocField := .mk "d" .double false true .none .none

/-! ### Version-order lemmas -/

theorem i64wrap_eq_self (n : Int) (h1 : -(2 ^ 63) ≤ n) (h2 : n < 2 ^ 63) :
    i64wrap n = n := by
  unfold i64wrap
  have h3 : (0 : Int) ≤ n + 2 ^ 63 := by omega
  have h4 : n + 2 ^ 63 < 2 ^ 64 := by omega
  rw [Int.emod_eq_of_lt h3 h4]
  omega

theorem Version.compare_neg_iff (a b : Version) (ha : a.wf) (hb : b.wf) :
    a.compare b < 0 ↔ a.specLt b := by
  obtain ⟨ha1, ha2, ha3, ha4, ha5, ha6⟩ := ha
  obtain ⟨hb1, hb2, hb3, hb4, hb5, hb6⟩ := hb
  unfold Version.compare Version.specLt
  split_ifs with h1 h2
  · rw [i64wrap_eq_self _ (by omega) (by omega)]; omega
  · rw [i64wrap_eq_self _ (by omega) (by omega)]; omega
  · rw [i64wrap_eq_self _ (by omega) (by omega)]; omega

theorem Version.compare_pos_iff (a b : Version) (ha : a.wf) (hb : b.wf) :
    0 < a.compare b ↔ b.specLt a := by
  obtain ⟨ha1, ha2, ha3, ha4, ha5, ha6⟩ := ha
  obtain ⟨hb1, hb2, hb3, hb4, hb5, hb6⟩ := hb
  unfold Version.compare Version.specLt
  split_ifs with h1 h2
  · rw [i64wrap_eq_self _ (by omega) (by omega)]; omega
  · rw [i64wrap_eq_self _ (by omega) (by omega)]; omega
  · rw [i64wrap_eq_self _ (by omega) (by omega)]; omega

theorem Version.not_specLt_iff (a b : Version) : ¬ a.specLt b ↔ b.specLe a := by
  unfold Version.specLt Version.specLe
  omega

/-! ### AppliesForVersion vs isFieldAvailableWithConstraints -/

theorem gateBlocksLow_eq (g : String) (v : Version) :
    gateBlocksLow g v =
      (match parseVersionOpt g with
       | some s => decide (v.compare s < 0)
       | none => false) := by
  by_cases hg : g = ""
  · subst hg; rfl
  · unfold gateBlocksLow parseVersionOpt
    cases h : parseVersion g with
    | ok s => simp [hg, h, Except.toOption]
    | error e => simp [hg, h, Except.toOption]

theorem gateBlocksHigh_eq (g : String) (v : Version) :
    gateBlocksHigh g v =
      (match parseVersionOpt g with
       | some u => decide (0 < v.compare u)
       | none => false) := by
  by_cases hg : g = ""
  · subst hg; rfl
  · unfold gateBlocksHigh parseVersionOpt
    cases h : parseVersion g with
    | ok s => simp [hg, h, Except.toOption]
    | error e => simp [hg, h, Except.toOption]

/-- Agreement of the two gate checks: `BaseValidator.AppliesForVersion` coincides with main.go's
`isFieldAvailableWithConstraints` applied to the gates' parse results:
both apply a bound exactly when the gate string parses. -/
theorem appliesForVersion_eq_isFieldAvailable (bv : BaseValidator) (ctx : Ctx) :
    bv.appliesForVersion ctx =
      isFieldAvailableWithConstraints (parseVersionOpt bv.since) (parseVersionOpt bv.untilV)
        ctx.version := by
  unfold BaseValidator.appliesForVersion isFieldAvailableWithConstraints
  rw [gateBlocksLow_eq, gateBlocksHigh_eq]

theorem isFieldAvailable_true_iff (S U : Option Version) (v : Version) :
    isFieldAvailableWithConstraints S U v = true ↔
      ((∀ s ∈ S, ¬ v.compare s < 0) ∧ (∀ u ∈ U, ¬ 0 < v.compare u)) := by
  unfold isFieldAvailableWithConstraints
  rcases S with _ | s <;> rcases U with _ | u <;>
    simp only [Option.mem_def, Option.some.injEq] <;> split_ifs <;> simp_all

/-- C1: A validator with optional gates `since = S` / `until = U` applies
for target `v` iff `S ≤ v` whenever `S` is set and `v ≤ U` whenever `U` is
set, with both endpoint comparisons inclusive.  Stated for
`isFieldAvailableWithConstraints` (main.go) over versions in the
specification's data model (non-negative components, 64-bit range), and
conjoined with the fact that `BaseValidator.AppliesForVersion`
(validator.go) computes exactly `isFieldAvailableWithConstraints` of its
gates' parse results. -/
theorem C1_version_gate_inclusive (sinceVersion untilVersion : Option Version) (v : Version)
    (hs : ∀ s ∈ sinceVersion, s.wf) (hu : ∀ u ∈ untilVersion, u.wf) (hv : v.wf) :
    (isFieldAvailableWithConstraints sinceVersion untilVersion v = true ↔
      ((∀ s ∈ sinceVersion, s.specLe v) ∧ (∀ u ∈ untilVersion, v.specLe u)))
    ∧ ∀ (bv : BaseValidator) (ctx : Ctx),
        bv.appliesForVersion ctx =
          isFieldAvailableWithConstraints (parseVersionOpt bv.since) (parseVersionOpt bv.untilV)
            ctx.version := by
  refine ⟨?_, fun bv ctx => appliesForVersion_eq_isFieldAvailable bv ctx⟩
  rw [isFieldAvailable_true_iff]
  refine and_congr ?_ ?_
  · exact forall₂_congr fun s hsm => by
      rw [Version.compare_neg_iff v s hv (hs s hsm), Version.not_specLt_iff]
  · exact forall₂_congr fun u hum => by
      rw [Version.compare_pos_iff v u hv (hu u hum), Version.not_specLt_iff]

/-- Witness for C1 at `S = 1.19.0`, `U = 1.20.1`, `v = 1.20.0`. -/
theorem C1_witness :
    isFieldAvailableWithConstraints (some ⟨1, 19, 0⟩) (some ⟨1, 20, 1⟩) ⟨1, 20, 0⟩ = true := by
  have h := (C1_version_gate_inclusive (some ⟨1, 19, 0⟩) (some ⟨1, 20, 1⟩) ⟨1, 20, 0⟩
    (by intro s hs; cases hs; decide) (by intro u hu; cases hu; decide) (by decide)).1
  exact h.mpr ⟨by intro s hs; cases hs; decide, by intro u hu; cases hu; decide⟩

/-- C10 counterexample: the since gate `"abc"` is non-empty and not
parseable, yet the validator does NOT apply for target version 2.0.0,
because the other (parseable) gate `until = "1.0"` excludes it.  The claim
as stated — a validator with a malformed gate "applies for every target
version" — is therefore false at this input. -/
theorem C10_counterexample :
    parseVersionOpt "abc" = none
    ∧ BaseValidator.appliesForVersion ⟨"abc", "1.0"⟩ ⟨⟨2, 0, 0⟩, []⟩ = false := by
  exact ⟨by decide, by decide⟩

/-- C10 (amended): a non-empty but unparseable gate string — whether it is
the since gate or the until gate — is silently ignored: the validator
behaves exactly as if that gate were empty, while a parseable other gate
still constrains it; and when both gates are unparseable (or empty), the
validator applies for every target version.  `AppliesForVersion` returns
only a boolean; no error or diagnostic is produced for the malformed
gate. -/
theorem C10_malformed_gate_ignored (s u : String) (ctx : Ctx) :
    (parseVersionOpt s = none →
      BaseValidator.appliesForVersion ⟨s, u⟩ ctx = BaseValidator.appliesForVersion ⟨"", u⟩ ctx)
    ∧ (parseVersionOpt u = none →
      BaseValidator.appliesForVersion ⟨s, u⟩ ctx = BaseValidator.appliesForVersion ⟨s, ""⟩ ctx)
    ∧ (parseVersionOpt s = none → parseVersionOpt u = none →
      BaseValidator.appliesForVersion ⟨s, u⟩ ctx = true) := by
  have h1 := appliesForVersion_eq_isFieldAvailable ⟨s, u⟩ ctx
  have h2 := appliesForVersion_eq_isFieldAvailable ⟨"", u⟩ ctx
  have h3 := appliesForVersion_eq_isFieldAvailable ⟨s, ""⟩ ctx
  have hempty : parseVersionOpt "" = none := by decide
  refine ⟨?_, ?_, ?_⟩
  · intro hs
    rw [h1, h2]
    simp only [hs, hempty]
  · intro hu
    rw [h1, h3]
    simp only [hu, hempty]
  · intro hs hu
    rw [h1]
    simp only [hs, hu]
    rfl

/-- Witness for C10: a malformed until gate (`since = "1.19"`,
`until = "abc"`) behaves as an empty until gate; and with both gates
malformed (`"abc"`, `"xyz"`) the validator applies at the arbitrary
target 5.5.5. -/
theorem C10_witness :
    parseVersionOpt "abc" = none ∧ parseVersionOpt "xyz" = none
    ∧ BaseValidator.appliesForVersion ⟨"1.19", "abc"⟩ ctx0
        = BaseValidator.appliesForVersion ⟨"1.19", ""⟩ ctx0
    ∧ BaseValidator.appliesForVersion ⟨"abc", "1.19"⟩ ctx0
        = BaseValidator.appliesForVersion ⟨"", "1.19"⟩ ctx0
    ∧ BaseValidator.appliesForVersion ⟨"abc", "xyz"⟩ ⟨⟨5, 5, 5⟩, []⟩ = true := by
  refine ⟨by decide, by decide, ?_, ?_, ?_⟩
  · exact (C10_malformed_gate_ignored "1.19" "abc" ctx0).2.1 (by decide)
  · exact (C10_malformed_gate_ignored "abc" "1.19" ctx0).1 (by decide)
  · exact (C10_malformed_gate_ignored "abc" "xyz" ⟨⟨5, 5, 5⟩, []⟩).2.2 (by decide) (by decide)

/-! ### parseVersion lemmas (C7) -/

theorem splitDot_no_dot (cs : List Char) (h : '.' ∉ cs) : splitDot cs = [cs] := by
  induction cs with
  | nil => rfl
  | cons c cs ih =>
    have hc' : ¬ (c = '.') := by intro hc; subst hc; exact h (List.mem_cons_self _ _)
    have htl : '.' ∉ cs := fun hm => h (List.mem_cons_of_mem c hm)
    simp only [splitDot, if_neg hc', ih htl]

theorem splitDot_append (M rest : List Char) (h : '.' ∉ M) :
    splitDot (M ++ '.' :: rest) = M :: splitDot rest := by
  induction M with
  | nil => simp [splitDot]
  | cons c cs ih =>
    have hc' : ¬ (c = '.') := by intro hc; subst hc; exact h (List.mem_cons_self _ _)
    have htl : '.' ∉ cs := fun hm => h (List.mem_cons_of_mem c hm)
    show splitDot (c :: (cs ++ '.' :: rest)) = (c :: cs) :: splitDot rest
    simp only [splitDot, if_neg hc']
    rw [ih htl]

theorem goAtoi_digits (M : List Char) (h1 : M ≠ []) (h2 : M.all Char.isDigit = true)
    (h3 : decVal M ≤ 2 ^ 63 - 1) :
    goAtoi M = some ((decVal M : Int)) := by
  cases M with
  | nil => exact absurd rfl h1
  | cons c cs =>
    have hcd : c.isDigit = true := List.all_eq_true.mp h2 c (List.mem_cons_self _ _)
    have hplus : ¬ (c = '+') := by intro hc; subst hc; exact absurd hcd (by decide)
    have hminus : ¬ (c = '-') := by intro hc; subst hc; exact absurd hcd (by decide)
    simp only [goAtoi]
    rw [if_neg hplus, if_neg hminus]
    unfold decDigitsVal
    rw [if_neg (by simp), if_pos h2]
    simp only [Option.some_bind]
    rw [if_pos h3]

theorem digit_string_no_dot (M : List Char) (h : M.all Char.isDigit = true) : '.' ∉ M :=
  fun hmem => absurd (List.all_eq_true.mp h _ hmem) (by decide)

/-- C7 counterexample: `"9223372036854775808"` (2^63) is a decimal integer
string, but `strconv.Atoi` fails on it with `ErrRange` (it exceeds the
64-bit `int`), so `parseVersion "9223372036854775808.0"` returns an error
rather than succeeding as the claim, quantified over ALL decimal integer
strings, requires. -/
theorem C7_counterexample :
    parseVersion "9223372036854775808.0"
      = .error "invalid major version: 9223372036854775808" := by decide

/-- C7 (amended): for all decimal digit strings `M`, `m`, `p` whose values
fit in a 64-bit signed int (the `strconv.Atoi` range), `parseVersion "M.m"`
succeeds, returns the same `Version` as `parseVersion "M.m.0"` (the patch
component defaults to 0), and `parseVersion "M.m.p"` returns the triple
`(M, m, p)`. -/
theorem C7_patch_defaults_to_zero (M m p : List Char)
    (hM : M ≠ [] ∧ M.all Char.isDigit = true ∧ decVal M ≤ 2 ^ 63 - 1)
    (hm : m ≠ [] ∧ m.all Char.isDigit = true ∧ decVal m ≤ 2 ^ 63 - 1)
    (hp : p ≠ [] ∧ p.all Char.isDigit = true ∧ decVal p ≤ 2 ^ 63 - 1) :
    parseVersion (String.mk (M ++ '.' :: m)) = .ok ⟨decVal M, decVal m, 0⟩
    ∧ parseVersion (String.mk (M ++ '.' :: m)) =
        parseVersion (String.mk (M ++ '.' :: m ++ '.' :: ['0']))
    ∧ parseVersion (String.mk (M ++ '.' :: m ++ '.' :: p)) =
        .ok ⟨decVal M, decVal m, decVal p⟩ := by
  obtain ⟨hM1, hM2, hM3⟩ := hM
  obtain ⟨hm1, hm2, hm3⟩ := hm
  obtain ⟨hp1, hp2, hp3⟩ := hp
  have hMdot := digit_string_no_dot M hM2
  have hmdot := digit_string_no_dot m hm2
  have hpdot := digit_string_no_dot p hp2
  have e2 : splitDot (M ++ '.' :: m) = [M, m] := by
    rw [splitDot_append M m hMdot, splitDot_no_dot m hmdot]
  have e3 : splitDot (M ++ '.' :: m ++ '.' :: p) = [M, m, p] := by
    rw [List.append_assoc, List.cons_append, splitDot_append M _ hMdot,
      splitDot_append m p hmdot, splitDot_no_dot p hpdot]
  have e30 : splitDot (M ++ '.' :: m ++ '.' :: ['0']) = [M, m, ['0']] := by
    rw [List.append_assoc, List.cons_append, splitDot_append M _ hMdot,
      splitDot_append m ['0'] hmdot, splitDot_no_dot ['0'] (by decide)]
  have gM := goAtoi_digits M hM1 hM2 hM3
  have gm := goAtoi_digits m hm1 hm2 hm3
  have gp := goAtoi_digits p hp1 hp2 hp3
  have two : parseVersion (String.mk (M ++ '.' :: m)) = .ok ⟨decVal M, decVal m, 0⟩ := by
    unfold parseVersion
    show (match splitDot (M ++ '.' :: m) with
      | [mj, mn] => _
      | [mj, mn, pt] => _
      | _ => _) = _
    rw [e2]
    simp only [gM, gm]
  have three : parseVersion (String.mk (M ++ '.' :: m ++ '.' :: p))
      = .ok ⟨decVal M, decVal m, decVal p⟩ := by
    unfold parseVersion
    show (match splitDot (M ++ '.' :: m ++ '.' :: p) with
      | [mj, mn] => _
      | [mj, mn, pt] => _
      | _ => _) = _
    rw [e3]
    simp only [gM, gm, gp]
  have threeZero : parseVersion (String.mk (M ++ '.' :: m ++ '.' :: ['0']))
      = .ok ⟨decVal M, decVal m, 0⟩ := by
    unfold parseVersion
    show (match splitDot (M ++ '.' :: m ++ '.' :: ['0']) with
      | [mj, mn] => _
      | [mj, mn, pt] => _
      | _ => _) = _
    rw [e30]
    simp only [gM, gm]
    rfl
  exact ⟨two, by rw [two, threeZero], three⟩

/-- Witness for C7 at `M = "1"`, `m = "20"`, `p = "1"`. -/
theorem C7_witness :
    parseVersion "1.20" = .ok ⟨1, 20, 0⟩
    ∧ parseVersion "1.20" = parseVersion "1.20.0"
    ∧ parseVersion "1.20.1" = .ok ⟨1, 20, 1⟩ := by
  have h := C7_patch_defaults_to_zero ['1'] ['2', '0'] ['1']
    ⟨by decide, by decide, by decide⟩ ⟨by decide, by decide, by decide⟩
    ⟨by decide, by decide, by decide⟩
  exact ⟨h.1, h.2.1, h.2.2⟩

/-- C2: the int primitive validator accepts the JSON integer `42` and the
whole-valued JSON float `42.0` with no error, and rejects the JSON float
`42.5` with a type-mismatch error — in both implementations
(`PrimitiveValidator.Validate` of validator.go and `validateField` of
main.go). -/
theorem C2_int_accepts_whole_floats (ctx : Ctx) (path : String) :
    (Validator.primitive bv0 "int").validate (.int 42) ctx = none
    ∧ (Validator.primitive bv0 "int").validate (.float 42) ctx = none
    ∧ (Validator.primitive bv0 "int").validate (.float q42half) ctx
        = some ⟨ctx.path, "expected integer, got float"⟩
    ∧ validateField (.int 42) intFieldEx path = []
    ∧ validateField (.float 42) intFieldEx path = []
    ∧ validateField (.float q42half) intFieldEx path
        = ["Field '" ++ path ++ "' should be an integer, got float " ++ fmtG q42half] :=
  ⟨rfl, rfl, rfl, rfl, rfl, rfl⟩

/-- C3: if a value validates against the first variant of a two-variant
union with no error, the union validates it with no error; and if the
first variant fails but the second succeeds, the union still validates
with no error (the failed attempt's diagnostics are discarded). -/
theorem C3_union_first_success (base : BaseValidator) (A B : Validator) (v : GoValue)
    (ctx : Ctx) :
    (A.validate v ctx = none →
      (Validator.union base (.cons A (.cons B .nil))).validate v ctx = none)
    ∧ (∀ e, A.validate v ctx = some e → B.validate v ctx = none →
      (Validator.union base (.cons A (.cons B .nil))).validate v ctx = none) := by
  constructor
  · intro hA
    cases h : base.appliesForVersion ctx <;>
      simp [Validator.validate, h, tryAlts, hA]
  · intro e hA hB
    cases h : base.appliesForVersion ctx <;>
      simp [Validator.validate, h, tryAlts, hA, hB]

/-- Witness for C3: `3` validates against `int` alone, hence against the
union `(int | string)`. -/
theorem C3_witness :
    (Validator.union bv0 (.cons (Validator.primitive bv0 "int")
        (.cons (Validator.primitive bv0 "string") .nil))).validate (.int 3) ctx0 = none :=
  (C3_union_first_success bv0 (Validator.primitive bv0 "int")
    (Validator.primitive bv0 "string") (.int 3) ctx0).1 (by decide)

/-- C4: the empty JSON object validates against a struct with no fields
and against a struct whose only field is optional (`x?: int`), and fails
against a struct with a required field `x: int` with exactly one
missing-required-field error naming `x` — in both implementations. -/
theorem C4_empty_object_structs (ctx : Ctx) (path : String) :
    (Validator.structV bv0 .nil .nil).validate (.obj []) ctx = none
    ∧ (Validator.structV bv0 (.cons (.mk "x" (.primitive bv0 "int") true bv0) .nil)
        .nil).validate (.obj []) ctx = none
    ∧ (Validator.structV bv0 (.cons (.mk "x" (.primitive bv0 "int") false bv0) .nil)
        .nil).validate (.obj []) ctx = some ⟨ctx.path, "required field 'x' is missing"⟩
    ∧ validateStruct [] .nil path = []
    ∧ validateStruct [] (.cons "x" optIntFieldEx .nil) path = []
    ∧ validateStruct [] (.cons "x" intFieldEx .nil) path
        = ["Required field '" ++ joinPath path "x" ++ "' is missing"] :=
  ⟨rfl, rfl, rfl, rfl, rfl, rfl⟩

/-- C8 counterexample: validator.go's float primitive validator REJECTS a
Go integer value (`expected float, got int`); the claim says every JSON
number, including a JSON integer, validates with no error.  (A JSON
integer reaches this validator as a `float64` only because `encoding/json`
decodes every JSON number as `float64`.) -/
theorem C8_counterexample :
    (Validator.primitive bv0 "float").validate (.int 5) ctx0
      = some ⟨[], "expected float, got int"⟩ := by decide

/-- C8 (amended): main.go's `validateField` accepts every JSON number —
float or integer — for float and double fields (the integer is coerced);
validator.go's `PrimitiveValidator` accepts every `float64` number for
float and double but rejects Go `int` values (see the counterexample). -/
theorem C8_float_number_acceptance (q : ℚ) (n : Int) (path : String) (ctx : Ctx) :
    validateField (.float q) floatFieldEx path = []
    ∧ validateField (.int n) floatFieldEx path = []
    ∧ validateField (.float q) doubleFieldEx path = []
    ∧ validateField (.int n) doubleFieldEx path = []
    ∧ (Validator.primitive bv0 "float").validate (.float q) ctx = none
    ∧ (Validator.primitive bv0 "double").validate (.float q) ctx = none :=
  ⟨rfl, rfl, rfl, rfl, rfl, rfl⟩

/-- C9: validation diagnostics depend on the enumeration order of a JSON
object's keys.  The two object lists below are permutations of each other
— they denote the same JSON object, which Go stores in a map with
randomized iteration order — yet `StructValidator.Validate` reports
different diagnostics for them, so two runs on identical inputs can
produce different diagnostic sequences. -/
theorem C9_diagnostics_depend_on_map_order :
    ([("a", GoValue.int 1), ("b", GoValue.int 2)].Perm
        [("b", GoValue.int 2), ("a", GoValue.int 1)])
    ∧ (Validator.structV bv0 .nil .nil).validate
        (.obj [("a", GoValue.int 1), ("b", GoValue.int 2)]) ctx0
        = some ⟨[], "unexpected field 'a'"⟩
    ∧ (Validator.structV bv0 .nil .nil).validate
        (.obj [("b", GoValue.int 2), ("a", GoValue.int 1)]) ctx0
        = some ⟨[], "unexpected field 'b'"⟩ :=
  ⟨List.Perm.swap ("b", GoValue.int 2) ("a", GoValue.int 1) [], by decide, by decide⟩

/-! ### Struct remaining-key lemmas (C5) -/

theorem remainingLoop_noSpreads_false (tryOne : String → GoValue → Bool) (seen : List String)
    (entries : List (String × GoValue)) (ctx : Ctx) :
    remainingLoop tryOne false seen entries ctx = none := by
  induction entries with
  | nil => rfl
  | cons kv rest ih =>
    obtain ⟨k, v⟩ := kv
    simp only [remainingLoop, Bool.and_false]
    split_ifs <;> simp_all

theorem trySpreads_nil (k : String) (v : GoValue) (ctx : Ctx) :
    trySpreads .nil k v ctx = false := rfl

theorem remainingLoop_all_false (tryOne : String → GoValue → Bool)
    (hf : ∀ k v, tryOne k v = false) (seen : List String)
    (entries : List (String × GoValue)) (ctx : Ctx) :
    remainingLoop tryOne true seen entries ctx = none ↔
      ∀ kv ∈ entries, kv.1 ∈ seen := by
  induction entries with
  | nil => simp [remainingLoop]
  | cons kv rest ih =>
    obtain ⟨k, v⟩ := kv
    simp only [remainingLoop, hf, Bool.not_false, Bool.and_true]
    by_cases hk : k ∈ seen
    · have hk' : seen.contains k = true := List.elem_iff.mpr hk
      simp [hk', ih, hk]
    · have hk' : ¬ (seen.contains k = true) := fun hc => hk (List.elem_iff.mp hc)
      simp [hk', hk]

theorem remainingLoop_nil_spreads (seen : List String) (entries : List (String × GoValue))
    (ctx : Ctx) :
    remainingLoop (fun k v => trySpreads .nil k v ctx) true seen entries ctx = none ↔
      ∀ kv ∈ entries, kv.1 ∈ seen :=
  remainingLoop_all_false _ (fun _ _ => rfl) seen entries ctx

/-- C5 (amended): after the declared-field loop succeeds with seen-set
`seen`, validator.go reports a remaining object key as an unexpected-field
error only when the struct has NO spread validators at all: with at least
one spread validator present, `StructValidator.Validate` reports nothing
for remaining keys — even keys that fail to validate against every spread
(the `!validated && len(sv.SpreadFields) == 0` test can never fire then).
With no spreads, validation succeeds iff every object key was seen by a
declared field.  main.go's `validateStruct` (which has no spread or
catch-all notion) always reports an unknown-field issue for a key that
matches no declared field. -/
theorem C5_unmatched_keys (base : BaseValidator) (fields : FieldList) (spreads : VList)
    (entries : List (String × GoValue)) (ctx : Ctx) (seen : List String)
    (happ : base.appliesForVersion ctx = true)
    (hok : validateFields fields entries ctx = .ok seen) :
    (spreads ≠ .nil →
      (Validator.structV base fields spreads).validate (.obj entries) ctx = none)
    ∧ ((Validator.structV base fields .nil).validate (.obj entries) ctx = none ↔
        ∀ kv ∈ entries, kv.1 ∈ seen)
    ∧ (∀ (jsonData : List (String × GoValue)) (mfields : MCDocFieldList) (path k : String)
        (v : GoValue), (k, v) ∈ jsonData → mcFieldsHasKey mfields k = false →
        ("Unknown field '" ++ joinPath path k ++ "'") ∈ validateStruct jsonData mfields path) := by
  refine ⟨?_, ?_, ?_⟩
  · intro hsp
    cases spreads with
    | nil => exact absurd rfl hsp
    | cons s rest =>
      simp only [Validator.validate, happ, Bool.not_true, Bool.false_eq_true, if_false, hok]
      exact remainingLoop_noSpreads_false _ seen entries ctx
  · simp only [Validator.validate, happ, Bool.not_true, Bool.false_eq_true, if_false, hok]
    exact remainingLoop_nil_spreads seen entries ctx
  · intro jsonData mfields path k v hkv hnk
    unfold validateStruct
    apply List.mem_append_right
    unfold unknownFieldIssues
    exact List.mem_filterMap.mpr ⟨(k, v), hkv, by simp [hnk]⟩

/-- C5 counterexample: a struct with one spread validator (`int`) and no
declared fields, and an object whose only key holds a string.  The key
fails to validate against the only spread contribution — second conjunct —
yet `StructValidator.Validate` reports NO error, where the claim requires
an unexpected-field error. -/
theorem C5_counterexample :
    (Validator.structV bv0 .nil (.cons (Validator.primitive bv0 "int") .nil)).validate
        (.obj [("k", GoValue.str "v")]) ctx0 = none
    ∧ (Validator.primitive bv0 "int").validate (GoValue.str "v")
        { ctx0 with path := ctx0.path ++ ["k"] } ≠ none :=
  ⟨by decide, by decide⟩

/-- Witness for C5 (amended): a required field `x: int` present in the
object; with no spreads, validation succeeds because every key was seen. -/
theorem C5_witness :
    (Validator.structV bv0 (.cons (.mk "x" (.primitive bv0 "int") false bv0) .nil)
        .nil).validate (.obj [("x", GoValue.int 1)]) ctx0 = none := by
  have h := C5_unmatched_keys bv0 (.cons (.mk "x" (.primitive bv0 "int") false bv0) .nil)
    (.cons (Validator.primitive bv0 "int") .nil) [("x", GoValue.int 1)] ctx0 ["x"]
    (by decide) (by decide)
  exact h.2.1.mpr (by decide)

/-- C6: `RangeValidator.Validate` accepts a numeric value `x` iff the
lower bound (when set) and the upper bound (when set) hold, inclusively by
default; when the exclusivity marker is set on an end (the `<..` / `..<`
forms), the comparison on that end is strict; an unset end imposes no
bound.  Stated for any applicable range validator and any value carrying
the number `q` (a JSON float or integer). -/
theorem C6_range_bounds (rv : RangeValidator) (value : GoValue) (q : ℚ) (ctx : Ctx)
    (happ : rv.base.appliesForVersion ctx = true) (hnum : numValueOf value = some q) :
    rv.goValidate value ctx = none ↔
      ((∀ a ∈ rv.min, if rv.minExclusive then a < q else a ≤ q) ∧
       (∀ b ∈ rv.max, if rv.maxExclusive then q < b else q ≤ b)) := by
  unfold RangeValidator.goValidate
  rw [happ, hnum]
  rcases hmin : rv.min with _ | a <;> rcases hmax : rv.max with _ | b <;>
    cases hminex : rv.minExclusive <;> cases hmaxex : rv.maxExclusive <;>
      simp only [Bool.not_true, Bool.false_eq_true, if_false, Option.mem_def,
        Option.some.injEq, forall_eq', reduceCtorEq, false_implies, forall_const,
        true_and, and_true, Option.some_ne_none] <;>
      split_ifs <;> simp_all

/-- Witness for C6: the range `0 ..< 1` (inclusive min, exclusive max)
accepts the integer value `0`. -/
theorem C6_witness :
    (RangeValidator.mk bv0 (some 0) (some 1) false true).goValidate (.int 0) ctx0 = none := by
  have h := C6_range_bounds ⟨bv0, some 0, some 1, false, true⟩ (.int 0) 0 ctx0
    (by decide) (by decide)
  exact h.mpr ⟨by intro a ha; cases ha; decide, by intro b hb; cases hb; decide⟩
